import Mathlib

/-!
Verification of the execute-and-collect tool adapter (`executeTypeScript`)
of the agent0 repository, as a shallow embedding in Lean.

The adapter runs a TypeScript program in a remote sandbox: it provisions a
sandbox, installs npm dependencies, stages input files, builds a filtered
environment, runs the code, extracts a JSON result from stdout, collects
output files, and tears the sandbox down.  We model the sandbox provider as
an explicit behaviour record, JavaScript exceptions as `Except String`
(carrying the error message), and JSON values as an inductive type with
integer numerics (floating-point literals are outside the model).
-/

set_option maxHeartbeats 1000000

namespace Agent0

/-- Model of a JavaScript JSON value (numbers restricted to integers). -/
inductive Json where
  | null : Json
  | bool (b : Bool) : Json
  | num (n : Int) : Json
  | str (s : String) : Json
  | arr (xs : List Json) : Json
  | obj (kvs : List (String × Json)) : Json

/-- JavaScript truthiness of a JSON value (`if (args)` in the source). -/
def Json.truthy : Json → Bool
  | .null => false
  | .bool b => b
  | .num n => n != 0
  | .str s => s != ""
  | .arr _ => true
  | .obj _ => true

/-- The decimal digit character for `d % 10`-style values. -/
def digitChar : Nat → Char
  | 0 => '0' | 1 => '1' | 2 => '2' | 3 => '3' | 4 => '4'
  | 5 => '5' | 6 => '6' | 7 => '7' | 8 => '8' | 9 => '9'
  | _ => '0'

/-- Decimal digits of a natural number, most significant first (fuel-based
so that the kernel can evaluate it). -/
def natDigitsAux : Nat → Nat → List Char
  | 0, _ => []
  | fuel + 1, n =>
      if n < 10 then [digitChar n]
      else natDigitsAux fuel (n / 10) ++ [digitChar (n % 10)]

def natDigits (n : Nat) : List Char := natDigitsAux (n + 1) n

/-- Decimal rendering of an integer, as `JSON.stringify` renders it. -/
def intChars (n : Int) : List Char :=
  if n < 0 then '-' :: natDigits n.natAbs else natDigits n.natAbs

/-- JSON string-body escaping (quote and backslash). -/
def escapeChars : List Char → List Char
  | [] => []
  | c :: cs =>
      (if c = '"' ∨ c = '\\' then ['\\', c] else [c]) ++ escapeChars cs

mutual

/-- Characters of `JSON.stringify` applied to a value (compact form). -/
def strV : Json → List Char
  | .null => "null".data
  | .bool true => "true".data
  | .bool false => "false".data
  | .num n => intChars n
  | .str s => '"' :: escapeChars s.data ++ ['"']
  | .arr [] => ['[', ']']
  | .arr (x :: xs) => '[' :: strItems (x :: xs) ++ [']']
  | .obj [] => ['{', '}']
  | .obj (kv :: kvs) => '{' :: strMembers (kv :: kvs) ++ ['}']
termination_by v => sizeOf v

/-- Comma-separated renderings of an array's items. -/
def strItems : List Json → List Char
  | [] => []
  | [x] => strV x
  | x :: y :: ys => strV x ++ ',' :: strItems (y :: ys)
termination_by xs => sizeOf xs

/-- Comma-separated renderings of an object's members. -/
def strMembers : List (String × Json) → List Char
  | [] => []
  | [(k, v)] => '"' :: escapeChars k.data ++ '"' :: ':' :: strV v
  | (k, v) :: kv :: kvs =>
      ('"' :: escapeChars k.data ++ '"' :: ':' :: strV v) ++ ',' :: strMembers (kv :: kvs)
termination_by kvs => sizeOf kvs

end

/-- `JSON.stringify` on the model. -/
def Json.stringify (v : Json) : String := ⟨strV v⟩

/-- Parse a JSON string body up to the closing quote, undoing the escapes. -/
def parseStrBody : List Char → Option (List Char × List Char)
  | [] => none
  | c :: rest =>
      if c = '"' then some ([], rest)
      else if c = '\\' then
        match rest with
        | [] => none
        | d :: rest2 => (parseStrBody rest2).map fun p => (d :: p.1, p.2)
      else (parseStrBody rest).map fun p => (c :: p.1, p.2)

/-- Split off the maximal leading run of decimal digits. -/
def takeDigits : List Char → List Char × List Char
  | [] => ([], [])
  | c :: cs =>
      if c.isDigit then
        let p := takeDigits cs
        (c :: p.1, p.2)
      else ([], c :: cs)

/-- Value of a list of decimal digits, most significant first. -/
def digitsToNat (ds : List Char) : Nat :=
  ds.foldl (fun a c => 10 * a + (c.toNat - 48)) 0

/-- Consume a single expected colon. -/
def expectColon : List Char → Option (List Char)
  | ':' :: r => some r
  | _ => none

mutual

/-- Fuel-based recursive-descent parser for the model's JSON grammar
(whitespace-free texts, as emitted by `strV`). -/
def parseV : Nat → List Char → Option (Json × List Char)
  | 0, _ => none
  | _ + 1, [] => none
  | f + 1, c :: r =>
      if c = 'n' then
        match r with
        | 'u' :: 'l' :: 'l' :: r2 => some (.null, r2)
        | _ => none
      else if c = 't' then
        match r with
        | 'r' :: 'u' :: 'e' :: r2 => some (.bool true, r2)
        | _ => none
      else if c = 'f' then
        match r with
        | 'a' :: 'l' :: 's' :: 'e' :: r2 => some (.bool false, r2)
        | _ => none
      else if c = '"' then
        (parseStrBody r).map fun p => (.str ⟨p.1⟩, p.2)
      else if c = '[' then
        if r.head? = some ']' then some (.arr [], r.tail)
        else (parseItems f r).map fun p => (.arr p.1, p.2)
      else if c = '{' then
        if r.head? = some '}' then some (.obj [], r.tail)
        else (parseMembers f r).map fun p => (.obj p.1, p.2)
      else if c = '-' then
        let p := takeDigits r
        if p.1 = [] then none else some (.num (-(digitsToNat p.1 : Int)), p.2)
      else if c.isDigit then
        let p := takeDigits (c :: r)
        some (.num (digitsToNat p.1 : Int), p.2)
      else none

/-- Parse the items of a non-empty array, consuming the closing bracket. -/
def parseItems : Nat → List Char → Option (List Json × List Char)
  | 0, _ => none
  | f + 1, cs =>
      (parseV f cs).bind fun vp =>
        match vp.2 with
        | ',' :: r2 => (parseItems f r2).map fun p => (vp.1 :: p.1, p.2)
        | ']' :: r2 => some ([vp.1], r2)
        | _ => none

/-- Parse the members of a non-empty object, consuming the closing brace. -/
def parseMembers : Nat → List Char → Option (List (String × Json) × List Char)
  | 0, _ => none
  | f + 1, '"' :: r =>
      (parseStrBody r).bind fun kp =>
        (expectColon kp.2).bind fun r3 =>
          (parseV f r3).bind fun vp =>
            match vp.2 with
            | ',' :: r5 => (parseMembers f r5).map fun p => ((⟨kp.1⟩, vp.1) :: p.1, p.2)
            | '}' :: r5 => some ([(⟨kp.1⟩, vp.1)], r5)
            | _ => none
  | _ + 1, _ => none

end

/-- `JSON.parse` on the model: parse the whole text as one JSON value. -/
def Json.parse (s : String) : Option Json :=
  match parseV (2 * s.data.length + 2) s.data with
  | some (v, []) => some v
  | _ => none

/-- True when the list does not start with a decimal digit (so that a
number rendered before it keeps its own digits). -/
def noDigitHead : List Char → Bool
  | [] => true
  | c :: _ => !c.isDigit

mutual

/-- Parser-fuel measure of a JSON value. -/
def jsize : Json → Nat
  | .null => 1
  | .bool _ => 1
  | .num _ => 1
  | .str _ => 1
  | .arr [] => 1
  | .arr (x :: xs) => 1 + lsize (x :: xs)
  | .obj [] => 1
  | .obj (kv :: kvs) => 1 + msize (kv :: kvs)
termination_by v => sizeOf v

/-- Parser-fuel measure of an array's items. -/
def lsize : List Json → Nat
  | [] => 1
  | x :: xs => 1 + jsize x + lsize xs
termination_by xs => sizeOf xs

/-- Parser-fuel measure of an object's members. -/
def msize : List (String × Json) → Nat
  | [] => 1
  | (_, v) :: kvs => 1 + jsize v + msize kvs
termination_by kvs => sizeOf kvs

end

/-! ## The execute-and-collect adapter

`executeTypeScript` makes seven kinds of calls against the sandbox
provider, in a fixed order, inside a try/catch/finally.  We model the
provider as a record of `Except`-valued behaviours (an `error` is a thrown
JavaScript exception carrying its message string), and instrument the
pipeline with a trace of the calls it makes. -/

/-- One call made against the sandbox provider. -/
inductive Event where
  | create
  | install (cmd : String)
  | write (path content : String)
  | run (code : String) (envs : List (String × String))
  | list
  | read (path : String)
  | kill
deriving DecidableEq

/-- Entry type reported by the sandbox file listing (`file.type`). -/
inductive EntryKind where
  | file
  | dir
deriving DecidableEq

def EntryKind.isFile : EntryKind → Bool
  | .file => true
  | .dir => false

/-- One entry of the sandbox working-directory listing. -/
structure FileEntry where
  name : String
  kind : EntryKind
deriving DecidableEq

/-- What the sandbox reports for one `runCode` call: stdout/stderr chunks in
arrival order, and an optional runtime fault (`execution.error`). -/
structure RunOutcome where
  stdoutChunks : List String
  stderrChunks : List String
  error : Option Json

/-- Behaviour of the sandbox provider during one invocation: the outcome of
each call the adapter can make.  `Except.error msg` is a thrown exception
whose `.message` is `msg`. -/
structure SandboxBehavior where
  create : Except String Unit
  install : String → Except String Unit
  write : String → String → Except String Unit
  run : String → List (String × String) → Except String RunOutcome
  list : Except String (List FileEntry)
  read : String → Except String String
  kill : Except String Unit

/-- The structured result the adapter returns (interface `ExecResult`).
`none` models an absent (`undefined`) field. -/
structure ExecResult where
  stdout : String
  stderr : String
  files : Option (List (String × String))
  result : Option Json
  error : Option String

/-- A step of the pipeline: the provider calls it made, and either a value
or the exception that escaped it. -/
def EffM (α : Type) : Type := List Event × Except String α

def effPure {α : Type} (a : α) : EffM α := ([], .ok a)

def effStep {α : Type} (ev : Event) (r : Except String α) : EffM α := ([ev], r)

def effBind {α β : Type} (x : EffM α) (f : α → EffM β) : EffM β :=
  match x with
  | (lg, .ok a) => ((lg ++ (f a).1 : List Event), (f a).2)
  | (lg, .error e) => (lg, .error e)

/-- Model of JavaScript `String.prototype.startsWith` (char-exact). -/
def strStartsWith (s pre : String) : Bool := pre.data.isPrefixOf s.data

/-- Model of JavaScript `String.prototype.endsWith` (char-exact). -/
def strEndsWith (s suf : String) : Bool := suf.data.isSuffixOf s.data

/-- The environment-forwarding rule of the adapter (source: `key.endsWith
("_API_KEY") || key.startsWith("API_KEY_") || key.startsWith("BASE_URL_")`). -/
def matchRule (key : String) : Bool :=
  strEndsWith key "_API_KEY" || strStartsWith key "API_KEY_" || strStartsWith key "BASE_URL_"

/-- The environment passed to `runCode`: every host variable whose name
matches the rule, with `undefined` values replaced by `""` (`value || ""`),
plus `ARGS_JSON = JSON.stringify(args)` when `args` is truthy
(`if (args)`). -/
def buildEnvVars (hostEnv : List (String × Option String)) (args : Option Json) :
    List (String × String) :=
  ((hostEnv.filter fun kv => matchRule kv.1).map fun kv => (kv.1, kv.2.getD ""))
    ++ match args with
       | some a => if a.truthy then [("ARGS_JSON", Json.stringify a)] else []
       | none => []

/-- `npm install` command built from the dependency list (`dependencies.join(" ")`). -/
def installCmd (ds : List String) : String :=
  "npm install " ++ String.intercalate " " ds

/-- Dependency installation: one batched install when the list is present
and non-empty (`if (dependencies && dependencies.length > 0)`). -/
def installPhase (beh : SandboxBehavior) : Option (List String) → EffM Unit
  | some ds =>
      if ds.length > 0 then effStep (.install (installCmd ds)) (beh.install (installCmd ds))
      else effPure ()
  | none => effPure ()

/-- Stage each provided file at `/home/user/<path>` in order. -/
def writeFiles (beh : SandboxBehavior) : List (String × String) → EffM Unit
  | [] => effPure ()
  | (path, content) :: rest =>
      effBind
        (effStep (.write ("/home/user/" ++ path) content)
          (beh.write ("/home/user/" ++ path) content))
        fun _ => writeFiles beh rest

def writePhase (beh : SandboxBehavior) : Option (List (String × String)) → EffM Unit
  | some fs => writeFiles beh fs
  | none => effPure ()

/-- Index of the first character satisfying `p`. -/
def firstIdx (p : Char → Bool) : List Char → Option Nat
  | [] => none
  | c :: cs => if p c then some 0 else (firstIdx p cs).map (· + 1)

/-- Index of the last character satisfying `p`. -/
def lastIdx (p : Char → Bool) : List Char → Option Nat
  | [] => none
  | c :: cs =>
      match lastIdx p cs with
      | some j => some (j + 1)
      | none => if p c then some 0 else none

/-- Model of `stdout.match(/\x7b[\s\S]*\x7d/)`: the first match of the
greedy brace-delimited pattern, i.e. the span from the first opening brace
to the last closing brace (when the latter comes after the former). -/
def jsonMatch (s : String) : Option String :=
  match firstIdx (fun c => c = '{') s.data, lastIdx (fun c => c = '}') s.data with
  | some i, some j => if i < j then some ⟨(s.data.drop i).take (j - i + 1)⟩ else none
  | _, _ => none

/-- Result extraction: `JSON.parse` of the matched span, with a parse
failure swallowed (`result` left unset). -/
def extractResult (stdout : String) : Option Json :=
  (jsonMatch stdout).bind fun m => Json.parse m

/-- The exclusion list for output-file collection. -/
def excludeFiles : List String :=
  [".bashrc", ".bash_logout", ".profile", "package.json", "package-lock.json"]

/-- The per-entry filter of the collection loop: regular files only, not
carrying the `.ts` extension, and not in the exclusion list. -/
def keepFile (e : FileEntry) : Bool :=
  e.kind.isFile && !(strEndsWith e.name ".ts") && !(excludeFiles.contains e.name)

/-- The collection loop: read each kept file; a failing read aborts the
loop, keeping the entries accumulated so far (the `catch` around the loop
ignores the exception but `outputFiles` already holds them). -/
def collectLoop (beh : SandboxBehavior) : List FileEntry → List Event × List (String × String)
  | [] => ([], [])
  | e :: rest =>
      if keepFile e then
        match beh.read ("/home/user/" ++ e.name) with
        | .ok content =>
            ((.read ("/home/user/" ++ e.name) :: (collectLoop beh rest).1 : List Event),
              (e.name, content) :: (collectLoop beh rest).2)
        | .error _ => ([.read ("/home/user/" ++ e.name)], [])
      else collectLoop beh rest

/-- Output-file collection: list the working directory and read the kept
files back; listing failures yield no files, and are never an error. -/
def collectFiles (beh : SandboxBehavior) : List Event × List (String × String) :=
  match beh.list with
  | .ok entries => ((.list :: (collectLoop beh entries).1 : List Event), (collectLoop beh entries).2)
  | .error _ => ([.list], [])

/-- The result record built on the success path: joined stdout/stderr,
collected files (omitted when empty), extracted result, and the sandbox
fault (when reported) as the error.  (The model renders the fault with
compact instead of 2-space-indented `JSON.stringify`.) -/
def mkResult (beh : SandboxBehavior) (ex : RunOutcome) : ExecResult :=
  { stdout := String.join ex.stdoutChunks
    stderr := String.join ex.stderrChunks
    files := if (collectFiles beh).2.isEmpty then none else some (collectFiles beh).2
    result := extractResult (String.join ex.stdoutChunks)
    error := ex.error.map Json.stringify }

/-- The `try` block of `executeTypeScript`: create sandbox, install
dependencies, stage files, run the code with the filtered environment,
extract stdout/stderr/result/error, collect output files.  (The model
elides `console.log`/`Date.now` instrumentation, which produces no
observable part of the result.) -/
def tryBody (beh : SandboxBehavior) (code : String) (dependencies : Option (List String))
    (files : Option (List (String × String))) (args : Option Json)
    (hostEnv : List (String × Option String)) : EffM ExecResult :=
  effBind (effStep .create beh.create) fun _ =>
  effBind (installPhase beh dependencies) fun _ =>
  effBind (writePhase beh files) fun _ =>
  effBind (effStep (.run code (buildEnvVars hostEnv args))
      (beh.run code (buildEnvVars hostEnv args))) fun ex =>
  ((collectFiles beh).1, .ok (mkResult beh ex))

/-- The `catch` block: fold a thrown exception into the result shape, with
the given fallback for an empty (falsy) message (`err.message || fallback`). -/
def catchResult (fallback msg : String) : ExecResult :=
  { stdout := ""
    stderr := if msg = "" then fallback else msg
    files := none
    result := none
    error := some (if msg = "" then fallback else msg) }

/-- The instrumented `executeTypeScript` (first variant in the source):
try/catch around the pipeline, and a `finally` that kills the sandbox
whenever `sbx` is non-null, i.e. whenever creation succeeded.  An exception
thrown by `kill` inside the `finally` replaces the function's outcome and
escapes. -/
def executeTypeScript (beh : SandboxBehavior) (code : String)
    (dependencies : Option (List String)) (files : Option (List (String × String)))
    (args : Option Json) (hostEnv : List (String × Option String)) :
    List Event × Except String ExecResult :=
  let body := tryBody beh code dependencies files args hostEnv
  let inner : ExecResult :=
    match body.2 with
    | .ok r => r
    | .error msg => catchResult "unknown error" msg
  if beh.create.isOk then
    match beh.kill with
    | .ok _ => ((body.1 ++ [.kill] : List Event), .ok inner)
    | .error e => ((body.1 ++ [.kill] : List Event), .error e)
  else (body.1, .ok inner)

def Event.isKill : Event → Bool
  | .kill => true
  | _ => false

/-- Number of teardown attempts in a trace. -/
def killCount (l : List Event) : Nat := l.countP Event.isKill

/-- The uninstrumented `executeTypeScript` (second variant in the source).
Its try block is line-for-line the first variant's without the timing
statements, so the embedding shares `tryBody`; the sole textual difference
in behaviourally relevant code is the fallback message `"Unknown error"`
(capitalised) in its catch block. -/
def executeTypeScript2 (beh : SandboxBehavior) (code : String)
    (dependencies : Option (List String)) (files : Option (List (String × String)))
    (args : Option Json) (hostEnv : List (String × Option String)) :
    List Event × Except String ExecResult :=
  let body := tryBody beh code dependencies files args hostEnv
  let inner : ExecResult :=
    match body.2 with
    | .ok r => r
    | .error msg => catchResult "Unknown error" msg
  if beh.create.isOk then
    match beh.kill with
    | .ok _ => ((body.1 ++ [.kill] : List Event), .ok inner)
    | .error e => ((body.1 ++ [.kill] : List Event), .error e)
  else (body.1, .ok inner)

/-- Behaviour whose provisioning fails and everything else succeeds. -/
def behCreateFails : SandboxBehavior :=
  { create := .error "no quota"
    install := fun _ => .ok ()
    write := fun _ _ => .ok ()
    run := fun _ _ => .ok { stdoutChunks := [], stderrChunks := [], error := none }
    list := .ok []
    read := fun _ => .ok ""
    kill := .ok () }

/-- Behaviour where every phase succeeds but the teardown throws. -/
def behKillFails : SandboxBehavior :=
  { create := .ok ()
    install := fun _ => .ok ()
    write := fun _ _ => .ok ()
    run := fun _ _ => .ok { stdoutChunks := [], stderrChunks := [], error := none }
    list := .ok []
    read := fun _ => .ok ""
    kill := .error "kill: sandbox already gone" }

/-- C1 (witness): with a failing execution phase and a healthy teardown,
the adapter returns a result with the error set and empty stdout. -/
def behRunFails : SandboxBehavior :=
  { create := .ok ()
    install := fun _ => .ok ()
    write := fun _ _ => .ok ()
    run := fun _ _ => .error "boom"
    list := .ok []
    read := fun _ => .ok ""
    kill := .ok () }

/-- Behaviour whose run succeeds with a sandbox-reported fault while stdout
holds a parseable JSON span. -/
def behFaultAndJson : SandboxBehavior :=
  { create := .ok ()
    install := fun _ => .ok ()
    write := fun _ _ => .ok ()
    run := fun _ _ => .ok
      { stdoutChunks := ["\x7b\"ok\":true\x7d"], stderrChunks := [], error := some (Json.str "fault") }
    list := .ok []
    read := fun _ => .ok ""
    kill := .ok () }

/-- Behaviour whose provisioning throws with message `"x"`. -/
def behCatchPath : SandboxBehavior :=
  { create := .error "x"
    install := fun _ => .ok ()
    write := fun _ _ => .ok ()
    run := fun _ _ => .ok { stdoutChunks := [], stderrChunks := [], error := none }
    list := .ok []
    read := fun _ => .ok ""
    kill := .ok () }

/-- Outcome and behaviour where every phase succeeds. -/
def ocEmpty : RunOutcome := { stdoutChunks := [], stderrChunks := [], error := none }

def behAllOk : SandboxBehavior :=
  { create := .ok ()
    install := fun _ => .ok ()
    write := fun _ _ => .ok ()
    run := fun _ _ => .ok ocEmpty
    list := .ok []
    read := fun _ => .ok ""
    kill := .ok () }

/-- Behaviour whose provisioning throws with an empty message (falsy in
JavaScript, so both variants fall back to their hard-coded text). -/
def behEmptyMsg : SandboxBehavior :=
  { create := .error ""
    install := fun _ => .ok ()
    write := fun _ _ => .ok ()
    run := fun _ _ => .ok ocEmpty
    list := .ok []
    read := fun _ => .ok ""
    kill := .ok () }

/-- Projection used to compare the two variants' outcomes. -/
def stderrOfOutcome (p : List Event × Except String ExecResult) : String :=
  match p.2 with
  | .ok r => r.stderr
  | .error e => e

/-- Listing used in the C6 witness: manifest, dotfile, the program source,
and one genuine output file. -/
def entriesC6 : List FileEntry :=
  [⟨"package.json", .file⟩, ⟨".bashrc", .file⟩, ⟨"program.ts", .file⟩, ⟨"report.csv", .file⟩]

def behC6 : SandboxBehavior :=
  { create := .ok ()
    install := fun _ => .ok ()
    write := fun _ _ => .ok ()
    run := fun _ _ => .ok ocEmpty
    list := .ok entriesC6
    read := fun _ => .ok "data"
    kill := .ok () }

/-- The behaviourally relevant core of a result: everything but `files`. -/
def coreOf (r : ExecResult) : String × String × Option Json × Option String :=
  (r.stdout, r.stderr, r.result, r.error)

def ocC5 : RunOutcome :=
  { stdoutChunks := ["log line\n\x7b\"ok\":true,\"data\":5\x7d\ntrailing"]
    stderrChunks := []
    error := none }

def behC5 : SandboxBehavior :=
  { create := .ok ()
    install := fun _ => .ok ()
    write := fun _ _ => .ok ()
    run := fun _ _ => .ok ocC5
    list := .ok []
    read := fun _ => .ok ""
    kill := .ok () }

theorem digitChar_isDigit (d : Nat) : (digitChar d).isDigit = true := by
  unfold digitChar
  split <;> decide

theorem natDigitsAux_digits (fuel n : Nat) :
    ∀ c ∈ natDigitsAux fuel n, c.isDigit = true := by
  induction fuel generalizing n with
  | zero => intro c hc; simp [natDigitsAux] at hc
  | succ f ih =>
      intro c hc
      unfold natDigitsAux at hc
      split at hc
      · simp at hc; subst hc; exact digitChar_isDigit n
      · rcases List.mem_append.mp hc with h | h
        · exact ih _ c h
        · simp at h; subst h; exact digitChar_isDigit (n % 10)

theorem natDigitsAux_ne_nil (fuel n : Nat) (h : 0 < fuel) :
    natDigitsAux fuel n ≠ [] := by
  cases fuel with
  | zero => omega
  | succ f =>
      unfold natDigitsAux
      split
      · simp
      · simp

theorem digitsToNat_append_singleton (ds : List Char) (c : Char) :
    digitsToNat (ds ++ [c]) = 10 * digitsToNat ds + (c.toNat - 48) := by
  simp [digitsToNat]

theorem digitChar_val (d : Nat) (h : d < 10) : (digitChar d).toNat - 48 = d := by
  interval_cases d <;> decide

theorem natDigitsAux_val (fuel n : Nat) (h : n < fuel) :
    digitsToNat (natDigitsAux fuel n) = n := by
  induction fuel generalizing n with
  | zero => omega
  | succ f ih =>
      unfold natDigitsAux
      split
      · next h10 =>
          simp [digitsToNat]
          exact digitChar_val n h10
      · next h10 =>
          push_neg at h10
          rw [digitsToNat_append_singleton, ih (n / 10) (by omega),
            digitChar_val (n % 10) (by omega)]
          omega

theorem natDigits_digits (n : Nat) : ∀ c ∈ natDigits n, c.isDigit = true :=
  natDigitsAux_digits (n + 1) n

theorem natDigits_ne_nil (n : Nat) : natDigits n ≠ [] :=
  natDigitsAux_ne_nil (n + 1) n (by omega)

theorem natDigits_val (n : Nat) : digitsToNat (natDigits n) = n :=
  natDigitsAux_val (n + 1) n (by omega)

theorem takeDigits_append (ds rest : List Char)
    (hds : ∀ c ∈ ds, c.isDigit = true) (hrest : noDigitHead rest = true) :
    takeDigits (ds ++ rest) = (ds, rest) := by
  induction ds with
  | nil =>
      cases rest with
      | nil => simp [takeDigits]
      | cons c cs =>
          simp [noDigitHead] at hrest
          simp [takeDigits, hrest]
  | cons d ds ih =>
      have hd : d.isDigit = true := hds d (by simp)
      simp only [List.cons_append, takeDigits, hd, if_pos, List.append_eq]
      rw [ih (fun c hc => hds c (by simp [hc]))]

theorem parseStrBody_quote (rest : List Char) :
    parseStrBody ('"' :: rest) = some ([], rest) := by
  unfold parseStrBody
  simp

theorem parseStrBody_backslash (d : Char) (rest : List Char) :
    parseStrBody ('\\' :: d :: rest) = (parseStrBody rest).map fun p => (d :: p.1, p.2) := by
  conv_lhs => unfold parseStrBody
  simp

theorem parseStrBody_cons_ne (c : Char) (cs : List Char) (h1 : c ≠ '"') (h2 : c ≠ '\\') :
    parseStrBody (c :: cs) = (parseStrBody cs).map fun p => (c :: p.1, p.2) := by
  conv_lhs => unfold parseStrBody
  simp [h1, h2]

theorem parseV_null (f : Nat) (r : List Char) :
    parseV (f + 1) ('n' :: 'u' :: 'l' :: 'l' :: r) = some (.null, r) := rfl

theorem parseV_true (f : Nat) (r : List Char) :
    parseV (f + 1) ('t' :: 'r' :: 'u' :: 'e' :: r) = some (.bool true, r) := rfl

theorem parseV_false (f : Nat) (r : List Char) :
    parseV (f + 1) ('f' :: 'a' :: 'l' :: 's' :: 'e' :: r) = some (.bool false, r) := rfl

theorem parseV_quote (f : Nat) (r : List Char) :
    parseV (f + 1) ('"' :: r) = (parseStrBody r).map fun p => (.str ⟨p.1⟩, p.2) := rfl

theorem parseV_lbracket (f : Nat) (r : List Char) :
    parseV (f + 1) ('[' :: r) =
      if r.head? = some ']' then some (.arr [], r.tail)
      else (parseItems f r).map fun p => (.arr p.1, p.2) := rfl

theorem parseV_lbrace (f : Nat) (r : List Char) :
    parseV (f + 1) ('{' :: r) =
      if r.head? = some '}' then some (.obj [], r.tail)
      else (parseMembers f r).map fun p => (.obj p.1, p.2) := rfl

theorem parseV_minus (f : Nat) (r : List Char) :
    parseV (f + 1) ('-' :: r) =
      if (takeDigits r).1 = [] then none
      else some (.num (-(digitsToNat (takeDigits r).1 : Int)), (takeDigits r).2) := rfl

theorem parseV_digit (f : Nat) (c : Char) (r : List Char) (hc : c.isDigit = true) :
    parseV (f + 1) (c :: r) =
      some (.num (digitsToNat (takeDigits (c :: r)).1 : Int), (takeDigits (c :: r)).2) := by
  have h1 : c ≠ 'n' := by rintro rfl; exact absurd hc (by decide)
  have h2 : c ≠ 't' := by rintro rfl; exact absurd hc (by decide)
  have h3 : c ≠ 'f' := by rintro rfl; exact absurd hc (by decide)
  have h4 : c ≠ '"' := by rintro rfl; exact absurd hc (by decide)
  have h5 : c ≠ '[' := by rintro rfl; exact absurd hc (by decide)
  have h6 : c ≠ '{' := by rintro rfl; exact absurd hc (by decide)
  have h7 : c ≠ '-' := by rintro rfl; exact absurd hc (by decide)
  conv_lhs => unfold parseV
  simp [h1, h2, h3, h4, h5, h6, h7, hc]

theorem isDigit_ne_delims (c : Char) (hc : c.isDigit = true) :
    c ≠ ']' ∧ c ≠ '}' := by
  constructor <;> rintro rfl <;> exact absurd hc (by decide)

/-- Every rendered JSON value starts with a character that is not a
closing bracket, closing brace, comma or colon. -/
theorem strV_head (v : Json) :
    ∃ c cs, strV v = c :: cs ∧ c ≠ ']' ∧ c ≠ '}' := by
  cases v with
  | null => exact ⟨'n', _, by rw [strV], by decide, by decide⟩
  | bool b => cases b with
      | true => exact ⟨'t', _, by rw [strV], by decide, by decide⟩
      | false => exact ⟨'f', _, by rw [strV], by decide, by decide⟩
  | num n =>
      by_cases hn : n < 0
      · refine ⟨'-', natDigits n.natAbs, ?_, by decide, by decide⟩
        simp [strV, intChars, hn]
      · obtain ⟨c, cs, hcs⟩ := List.exists_cons_of_ne_nil (natDigits_ne_nil n.natAbs)
        have hd : c.isDigit = true := natDigits_digits n.natAbs c (by simp [hcs])
        refine ⟨c, cs, ?_, (isDigit_ne_delims c hd).1, (isDigit_ne_delims c hd).2⟩
        simp [strV, intChars, hn, hcs]
  | str s => exact ⟨'"', escapeChars s.data ++ ['"'], by rw [strV]; simp, by decide, by decide⟩
  | arr xs => cases xs with
      | nil => exact ⟨'[', _, by rw [strV], by decide, by decide⟩
      | cons x xs => exact ⟨'[', strItems (x :: xs) ++ [']'], by rw [strV]; simp, by decide, by decide⟩
  | obj kvs => cases kvs with
      | nil => exact ⟨'{', _, by rw [strV], by decide, by decide⟩
      | cons kv kvs => exact ⟨'{', strMembers (kv :: kvs) ++ ['}'], by rw [strV]; simp, by decide, by decide⟩

theorem parseStrBody_escape (s rest : List Char) :
    parseStrBody (escapeChars s ++ '"' :: rest) = some (s, rest) := by
  induction s with
  | nil => simp [escapeChars, parseStrBody_quote]
  | cons c cs ih =>
      by_cases hc : c = '"' ∨ c = '\\'
      · have hlift : escapeChars (c :: cs) = '\\' :: c :: escapeChars cs := by
          simp [escapeChars, hc]
        rw [hlift, List.cons_append, List.cons_append, parseStrBody_backslash, ih]
        rfl
      · push_neg at hc
        have hlift : escapeChars (c :: cs) = c :: escapeChars cs := by
          simp [escapeChars, hc.1, hc.2]
        rw [hlift, List.cons_append, parseStrBody_cons_ne c _ hc.1 hc.2, ih]
        rfl

theorem jsize_pos (v : Json) : 1 ≤ jsize v := by
  cases v with
  | null => simp [jsize]
  | bool b => simp [jsize]
  | num n => simp [jsize]
  | str s => simp [jsize]
  | arr xs => cases xs <;> simp [jsize]
  | obj kvs => cases kvs <;> simp [jsize]

theorem lsize_pos (xs : List Json) : 1 ≤ lsize xs := by
  cases xs with
  | nil => simp [lsize]
  | cons x xs => simp [lsize]; omega

theorem msize_pos (kvs : List (String × Json)) : 1 ≤ msize kvs := by
  cases kvs with
  | nil => simp [msize]
  | cons kv kvs => obtain ⟨k, v⟩ := kv; simp [msize]; omega

theorem lsize_cons (x : Json) (xs : List Json) :
    lsize (x :: xs) = 1 + jsize x + lsize xs := by
  simp only [lsize]

theorem msize_cons (k : String) (v : Json) (kvs : List (String × Json)) :
    msize ((k, v) :: kvs) = 1 + jsize v + msize kvs := by
  simp only [msize]

/-- The model parser undoes the model printer: for every fuel bound, parsing
the rendering of a value (or item list, or member list) followed by a
suitable continuation recovers it exactly. -/
theorem json_roundtrip_aux (f : Nat) :
    (∀ v rest, jsize v ≤ f → noDigitHead rest = true →
      parseV f (strV v ++ rest) = some (v, rest))
    ∧ (∀ x xs rest, lsize (x :: xs) ≤ f →
      parseItems f (strItems (x :: xs) ++ ']' :: rest) = some (x :: xs, rest))
    ∧ (∀ k v kvs rest, msize ((k, v) :: kvs) ≤ f →
      parseMembers f (strMembers ((k, v) :: kvs) ++ '}' :: rest)
        = some ((k, v) :: kvs, rest)) := by
  induction f using Nat.strong_induction_on with
  | _ f IH =>
  refine ⟨?_, ?_, ?_⟩
  · intro v rest hf hrest
    obtain ⟨f', rfl⟩ : ∃ f', f = f' + 1 := ⟨f - 1, by have := jsize_pos v; omega⟩
    have IHP := IH f' (by omega)
    cases v with
    | null =>
        simp only [strV]
        exact parseV_null f' rest
    | bool b =>
        cases b with
        | true => simp only [strV]; exact parseV_true f' rest
        | false => simp only [strV]; exact parseV_false f' rest
    | num n =>
        by_cases hn : n < 0
        · have hs : strV (.num n) = '-' :: natDigits n.natAbs := by
            simp [strV, intChars, hn]
          rw [hs, List.cons_append, parseV_minus,
            takeDigits_append _ _ (natDigits_digits _) hrest]
          rw [if_neg (by simp [natDigits_ne_nil])]
          rw [natDigits_val]
          have hval : -((n.natAbs : Int)) = n := by omega
          rw [hval]
        · have hs : strV (.num n) = natDigits n.natAbs := by
            simp [strV, intChars, hn]
          obtain ⟨c, cs, hcs⟩ := List.exists_cons_of_ne_nil (natDigits_ne_nil n.natAbs)
          have hcd : c.isDigit = true := natDigits_digits n.natAbs c (by simp [hcs])
          rw [hs, hcs, List.cons_append, parseV_digit f' c _ hcd,
            ← List.cons_append, ← hcs,
            takeDigits_append _ _ (natDigits_digits _) hrest, natDigits_val]
          have hval : ((n.natAbs : Int)) = n := by omega
          rw [hval]
    | str s =>
        obtain ⟨sd⟩ := s
        have hs : strV (.str ⟨sd⟩) = '"' :: escapeChars sd ++ ['"'] := by rw [strV]
        have hshape : ('"' :: escapeChars sd ++ ['"']) ++ rest
            = '"' :: (escapeChars sd ++ '"' :: rest) := by simp
        rw [hs, hshape, parseV_quote, parseStrBody_escape]
        rfl
    | arr xs =>
        cases xs with
        | nil =>
            simp only [strV]
            rw [show (['[', ']'] ++ rest : List Char) = '[' :: ']' :: rest from rfl,
              parseV_lbracket]
            simp
        | cons x xs =>
            have hs : strV (.arr (x :: xs)) = '[' :: strItems (x :: xs) ++ [']'] := by
              rw [strV]
            have hshape : ('[' :: strItems (x :: xs) ++ [']']) ++ rest
                = '[' :: (strItems (x :: xs) ++ ']' :: rest) := by simp
            rw [hs, hshape, parseV_lbracket]
            obtain ⟨c, cs, hcs, hc1, _⟩ := strV_head x
            have hhead : ¬ (strItems (x :: xs) ++ ']' :: rest).head? = some ']' := by
              cases xs with
              | nil => simp [strItems, hcs, hc1]
              | cons y ys => simp [strItems, hcs, hc1]
            rw [if_neg hhead]
            have hsz : lsize (x :: xs) ≤ f' := by
              simp only [jsize] at hf; omega
            rw [IHP.2.1 x xs rest hsz]
            rfl
    | obj kvs =>
        rcases kvs with _ | ⟨⟨k, v⟩, kvs⟩
        · simp only [strV]
          rw [show (['{', '}'] ++ rest : List Char) = '{' :: '}' :: rest from rfl,
            parseV_lbrace]
          simp
        · have hs : strV (.obj ((k, v) :: kvs))
              = '{' :: strMembers ((k, v) :: kvs) ++ ['}'] := by rw [strV]
          have hshape : ('{' :: strMembers ((k, v) :: kvs) ++ ['}']) ++ rest
              = '{' :: (strMembers ((k, v) :: kvs) ++ '}' :: rest) := by simp
          rw [hs, hshape, parseV_lbrace]
          have hhead : ¬ (strMembers ((k, v) :: kvs) ++ '}' :: rest).head? = some '}' := by
            rcases kvs with _ | ⟨⟨k2, v2⟩, kvs2⟩
            · simp [strMembers]
            · simp [strMembers]
          rw [if_neg hhead]
          have hsz : msize ((k, v) :: kvs) ≤ f' := by
            simp only [jsize] at hf; omega
          rw [IHP.2.2 k v kvs rest hsz]
          rfl
  · intro x xs rest hf
    obtain ⟨f', rfl⟩ : ∃ f', f = f' + 1 :=
      ⟨f - 1, by rw [lsize_cons] at hf; omega⟩
    have IHP := IH f' (by omega)
    rw [lsize_cons] at hf
    cases xs with
    | nil =>
        simp only [strItems, parseItems]
        have hx : jsize x ≤ f' := by have := lsize_pos ([] : List Json); omega
        rw [IHP.1 x (']' :: rest) hx (by rfl)]
        rfl
    | cons y ys =>
        simp only [strItems, parseItems]
        have hshape : (strV x ++ ',' :: strItems (y :: ys)) ++ ']' :: rest
            = strV x ++ ',' :: (strItems (y :: ys) ++ ']' :: rest) := by simp
        rw [hshape]
        have hx : jsize x ≤ f' := by have := lsize_pos (y :: ys); omega
        rw [IHP.1 x _ hx (by rfl)]
        have hsz : lsize (y :: ys) ≤ f' := by have := jsize_pos x; omega
        show Option.map (fun p => (x :: p.1, p.2))
          (parseItems f' (strItems (y :: ys) ++ ']' :: rest)) = _
        rw [IHP.2.1 y ys rest hsz]
        rfl
  · intro k v kvs rest hf
    obtain ⟨f', rfl⟩ : ∃ f', f = f' + 1 :=
      ⟨f - 1, by rw [msize_cons] at hf; omega⟩
    have IHP := IH f' (by omega)
    rw [msize_cons] at hf
    obtain ⟨kd⟩ := k
    rcases kvs with _ | ⟨⟨k2, v2⟩, kvs2⟩
    · have hshape : strMembers [(⟨kd⟩, v)] ++ '}' :: rest
          = '"' :: (escapeChars kd ++ '"' :: (':' :: (strV v ++ '}' :: rest))) := by
        simp [strMembers]
      rw [hshape]
      simp only [parseMembers]
      rw [parseStrBody_escape kd (':' :: (strV v ++ '}' :: rest))]
      have hv : jsize v ≤ f' := by have := msize_pos ([] : List (String × Json)); omega
      show Option.bind (parseV f' (strV v ++ '}' :: rest)) _ = _
      rw [IHP.1 v ('}' :: rest) hv (by rfl)]
      rfl
    · have hshape : strMembers ((⟨kd⟩, v) :: (k2, v2) :: kvs2) ++ '}' :: rest
          = '"' :: (escapeChars kd ++ '"' :: (':' :: (strV v ++
              ',' :: (strMembers ((k2, v2) :: kvs2) ++ '}' :: rest)))) := by
        simp [strMembers]
      rw [hshape]
      simp only [parseMembers]
      rw [parseStrBody_escape kd
        (':' :: (strV v ++ ',' :: (strMembers ((k2, v2) :: kvs2) ++ '}' :: rest)))]
      have hv : jsize v ≤ f' := by have := msize_pos ((k2, v2) :: kvs2); omega
      show Option.bind
        (parseV f' (strV v ++ ',' :: (strMembers ((k2, v2) :: kvs2) ++ '}' :: rest))) _ = _
      rw [IHP.1 v _ hv (by rfl)]
      have hsz : msize ((k2, v2) :: kvs2) ≤ f' := by have := jsize_pos v; omega
      show Option.map (fun p => ((⟨kd⟩, v) :: p.1, p.2))
        (parseMembers f' (strMembers ((k2, v2) :: kvs2) ++ '}' :: rest)) = _
      rw [IHP.2.2 k2 v2 kvs2 rest hsz]
      rfl

/-- Parsing the rendering of a JSON value with enough fuel, followed by a
continuation that does not start with a digit, recovers the value. -/
theorem parseV_strV (v : Json) (f : Nat) (rest : List Char)
    (hf : jsize v ≤ f) (hrest : noDigitHead rest = true) :
    parseV f (strV v ++ rest) = some (v, rest) :=
  (json_roundtrip_aux f).1 v rest hf hrest

theorem intChars_length_pos (n : Int) : 1 ≤ (intChars n).length := by
  unfold intChars
  split
  · simp
  · obtain ⟨c, cs, hcs⟩ := List.exists_cons_of_ne_nil (natDigits_ne_nil n.natAbs)
    simp [hcs]

theorem json_sizeOf_pos (v : Json) : 1 ≤ sizeOf v := by
  cases v <;> simp

/-- The fuel measure of a value is covered by twice the length of its
rendering (so a parse of a rendered value never runs out of fuel). -/
theorem strV_len_bound (N : Nat) :
    (∀ v : Json, sizeOf v ≤ N → jsize v ≤ 2 * (strV v).length)
    ∧ (∀ (x : Json) (xs : List Json), sizeOf x + sizeOf xs ≤ N →
        lsize (x :: xs) ≤ 2 * (strItems (x :: xs)).length + 2)
    ∧ (∀ (k : String) (v : Json) (kvs : List (String × Json)), sizeOf v + sizeOf kvs ≤ N →
        msize ((k, v) :: kvs) ≤ 2 * (strMembers ((k, v) :: kvs)).length + 2) := by
  induction N using Nat.strong_induction_on with
  | _ N IH =>
  refine ⟨?_, ?_, ?_⟩
  · intro v hv
    cases v with
    | null => simp [jsize, strV]
    | bool b => cases b <;> simp [jsize, strV]
    | num n => have := intChars_length_pos n; simp [jsize, strV]; omega
    | str s => simp [jsize, strV]; omega
    | arr xs =>
        cases xs with
        | nil => simp [jsize, strV]
        | cons x xs =>
            have hszx : 1 ≤ sizeOf x := json_sizeOf_pos x
            have hszxs : 0 ≤ sizeOf xs := Nat.zero_le _
            have hN : sizeOf x + sizeOf xs < N := by
              simp only [Json.arr.sizeOf_spec, List.cons.sizeOf_spec] at hv; omega
            have hb := (IH (sizeOf x + sizeOf xs) hN).2.1 x xs le_rfl
            simp only [jsize, strV, List.append_assoc, List.length_append,
              List.length_cons, List.length_nil]
            omega
    | obj kvs =>
        rcases kvs with _ | ⟨⟨k, v⟩, kvs⟩
        · simp [jsize, strV]
        · have hN : sizeOf v + sizeOf kvs < N := by
            simp only [Json.obj.sizeOf_spec, List.cons.sizeOf_spec,
              Prod.mk.sizeOf_spec] at hv
            have := json_sizeOf_pos v
            omega
          have hb := (IH (sizeOf v + sizeOf kvs) hN).2.2 k v kvs le_rfl
          simp only [jsize, strV, List.append_assoc, List.length_append,
            List.length_cons, List.length_nil]
          omega
  · intro x xs hxs
    cases xs with
    | nil =>
        have hN : sizeOf x < N := by
          simp only [List.nil.sizeOf_spec] at hxs; omega
        have hb := (IH (sizeOf x) hN).1 x le_rfl
        simp only [lsize, strItems, jsize]
        omega
    | cons y ys =>
        have hN1 : sizeOf x < N := by
          simp only [List.cons.sizeOf_spec] at hxs
          have := json_sizeOf_pos y
          omega
        have hN2 : sizeOf y + sizeOf ys < N := by
          simp only [List.cons.sizeOf_spec] at hxs
          have := json_sizeOf_pos x
          omega
        have hb1 := (IH (sizeOf x) hN1).1 x le_rfl
        have hb2 := (IH (sizeOf y + sizeOf ys) hN2).2.1 y ys le_rfl
        rw [lsize_cons]
        rw [lsize_cons] at hb2
        simp only [strItems, List.length_append, List.length_cons]
        rw [lsize_cons]
        omega
  · intro k v kvs hkvs
    rcases kvs with _ | ⟨⟨k2, v2⟩, kvs2⟩
    · have hN : sizeOf v < N := by
        simp only [List.nil.sizeOf_spec] at hkvs; omega
      have hb := (IH (sizeOf v) hN).1 v le_rfl
      rw [msize_cons]
      simp only [msize, strMembers, List.length_append, List.length_cons]
      omega
    · have hN1 : sizeOf v < N := by
        simp only [List.cons.sizeOf_spec, Prod.mk.sizeOf_spec] at hkvs
        have := json_sizeOf_pos v2
        omega
      have hN2 : sizeOf v2 + sizeOf kvs2 < N := by
        simp only [List.cons.sizeOf_spec, Prod.mk.sizeOf_spec] at hkvs
        have := json_sizeOf_pos v
        omega
      have hb1 := (IH (sizeOf v) hN1).1 v le_rfl
      have hb2 := (IH (sizeOf v2 + sizeOf kvs2) hN2).2.2 k2 v2 kvs2 le_rfl
      rw [msize_cons]
      rw [msize_cons] at hb2
      simp only [strMembers, List.length_append, List.length_cons]
      rw [msize_cons]
      omega

/-- `JSON.parse (JSON.stringify v) = v` in the model: the round-trip law
used for argument passing. -/
theorem Json.parse_stringify (v : Json) : Json.parse (Json.stringify v) = some v := by
  unfold Json.parse Json.stringify
  have hdata : (⟨strV v⟩ : String).data = strV v := rfl
  rw [hdata]
  have hb : jsize v ≤ 2 * (strV v).length + 2 := by
    have := (strV_len_bound (sizeOf v)).1 v le_rfl
    omega
  have h := parseV_strV v (2 * (strV v).length + 2) [] hb rfl
  rw [List.append_nil] at h
  rw [h]

/-! Auxiliary lemmas about the pipeline's structure. -/

theorem effBind_ok {α β : Type} (x : EffM α) (f : α → EffM β) (b : β)
    (h : (effBind x f).2 = .ok b) : ∃ a, x.2 = .ok a ∧ (f a).2 = .ok b := by
  rcases x with ⟨lg, r⟩
  cases r with
  | ok a => exact ⟨a, rfl, by simpa [effBind] using h⟩
  | error e => simp [effBind] at h

theorem effBind_events {α β : Type} (P : Event → Prop) (x : EffM α) (f : α → EffM β)
    (hx : ∀ ev ∈ x.1, P ev) (hf : ∀ a, ∀ ev ∈ (f a).1, P ev) :
    ∀ ev ∈ (effBind x f).1, P ev := by
  rcases x with ⟨lg, r⟩
  cases r with
  | ok a =>
      intro ev hev
      simp only [effBind] at hev
      rcases List.mem_append.mp hev with h | h
      · exact hx ev h
      · exact hf a ev h
  | error e =>
      intro ev hev
      exact hx ev hev

/-- A successful `tryBody` means the run call succeeded with some outcome,
and the returned record is exactly the one built from it. -/
theorem tryBody_ok (beh : SandboxBehavior) (code : String) (deps : Option (List String))
    (files : Option (List (String × String))) (args : Option Json)
    (hostEnv : List (String × Option String)) (r : ExecResult)
    (h : (tryBody beh code deps files args hostEnv).2 = .ok r) :
    ∃ ex, beh.run code (buildEnvVars hostEnv args) = .ok ex ∧ r = mkResult beh ex := by
  unfold tryBody at h
  obtain ⟨a1, h1, h⟩ := effBind_ok _ _ _ h
  obtain ⟨a2, h2, h⟩ := effBind_ok _ _ _ h
  obtain ⟨a3, h3, h⟩ := effBind_ok _ _ _ h
  obtain ⟨ex, h4, h⟩ := effBind_ok _ _ _ h
  exact ⟨ex, h4, (Except.ok.inj h).symm⟩

theorem installPhase_events (beh : SandboxBehavior) (deps : Option (List String)) :
    ∀ ev ∈ (installPhase beh deps).1, ∃ cmd, ev = Event.install cmd := by
  cases deps with
  | none => intro ev hev; simp [installPhase, effPure] at hev
  | some ds =>
      intro ev hev
      simp only [installPhase] at hev
      by_cases hl : ds.length > 0
      · rw [if_pos hl] at hev
        simp [effStep] at hev
        exact ⟨installCmd ds, hev⟩
      · rw [if_neg hl] at hev
        simp [effPure] at hev

theorem writeFiles_events (beh : SandboxBehavior) (fs : List (String × String)) :
    ∀ ev ∈ (writeFiles beh fs).1, ∃ p c, ev = Event.write p c := by
  induction fs with
  | nil => intro ev hev; simp [writeFiles, effPure] at hev
  | cons pc rest ih =>
      obtain ⟨p, c⟩ := pc
      apply effBind_events
      · intro ev hev
        simp [effStep] at hev
        exact ⟨_, _, hev⟩
      · intro _; exact ih

theorem writePhase_events (beh : SandboxBehavior) (files : Option (List (String × String))) :
    ∀ ev ∈ (writePhase beh files).1, ∃ p c, ev = Event.write p c := by
  cases files with
  | none => intro ev hev; simp [writePhase, effPure] at hev
  | some fs => exact writeFiles_events beh fs

theorem collectLoop_events (beh : SandboxBehavior) (entries : List FileEntry) :
    ∀ ev ∈ (collectLoop beh entries).1, ∃ p, ev = Event.read p := by
  induction entries with
  | nil => intro ev hev; simp [collectLoop] at hev
  | cons e rest ih =>
      intro ev hev
      unfold collectLoop at hev
      by_cases hk : keepFile e = true
      · rw [if_pos hk] at hev
        cases hr : beh.read ("/home/user/" ++ e.name) with
        | ok content =>
            rw [hr] at hev
            rcases List.mem_cons.mp hev with h | h
            · exact ⟨_, h⟩
            · exact ih ev h
        | error msg =>
            rw [hr] at hev
            simp at hev
            exact ⟨_, hev⟩
      · rw [if_neg hk] at hev
        exact ih ev hev

theorem collectFiles_events (beh : SandboxBehavior) :
    ∀ ev ∈ (collectFiles beh).1, ev = Event.list ∨ ∃ p, ev = Event.read p := by
  intro ev hev
  unfold collectFiles at hev
  cases hl : beh.list with
  | ok entries =>
      rw [hl] at hev
      rcases List.mem_cons.mp hev with h | h
      · exact Or.inl h
      · exact Or.inr (collectLoop_events beh entries ev h)
  | error msg =>
      rw [hl] at hev
      simp at hev
      exact Or.inl hev

/-- Every call the try block makes is one of: create, install, write, the
single run with the filtered environment, list, or read. -/
theorem tryBody_events (beh : SandboxBehavior) (code : String) (deps : Option (List String))
    (files : Option (List (String × String))) (args : Option Json)
    (hostEnv : List (String × Option String)) :
    ∀ ev ∈ (tryBody beh code deps files args hostEnv).1,
      ev = Event.create
      ∨ (∃ cmd, ev = Event.install cmd)
      ∨ (∃ p c, ev = Event.write p c)
      ∨ ev = Event.run code (buildEnvVars hostEnv args)
      ∨ ev = Event.list
      ∨ (∃ p, ev = Event.read p) := by
  unfold tryBody
  apply effBind_events
  · intro ev hev
    simp [effStep] at hev
    exact Or.inl hev
  intro a1
  apply effBind_events
  · intro ev hev
    exact Or.inr (Or.inl (installPhase_events beh deps ev hev))
  intro a2
  apply effBind_events
  · intro ev hev
    exact Or.inr (Or.inr (Or.inl (writePhase_events beh files ev hev)))
  intro a3
  apply effBind_events
  · intro ev hev
    simp [effStep] at hev
    exact Or.inr (Or.inr (Or.inr (Or.inl hev)))
  intro ex
  intro ev hev
  rcases collectFiles_events beh ev hev with h | h
  · exact Or.inr (Or.inr (Or.inr (Or.inr (Or.inl h))))
  · exact Or.inr (Or.inr (Or.inr (Or.inr (Or.inr h))))

theorem tryBody_killCount (beh : SandboxBehavior) (code : String)
    (deps : Option (List String)) (files : Option (List (String × String)))
    (args : Option Json) (hostEnv : List (String × Option String)) :
    killCount (tryBody beh code deps files args hostEnv).1 = 0 := by
  rw [killCount, List.countP_eq_zero]
  intro ev hev
  rcases tryBody_events beh code deps files args hostEnv ev hev with
    h | ⟨cmd, h⟩ | ⟨p, c, h⟩ | h | h | ⟨p, h⟩ <;> subst h <;> simp [Event.isKill]

/-! ## Claim theorems -/

/-- C4 (amended): one teardown attempt exactly when provisioning succeeded;
none when provisioning itself threw (the handle is null and the `finally`
skips the kill). -/
theorem teardown_once_iff_created (beh : SandboxBehavior) (code : String)
    (deps : Option (List String)) (files : Option (List (String × String)))
    (args : Option Json) (hostEnv : List (String × Option String)) :
    killCount (executeTypeScript beh code deps files args hostEnv).1
      = if beh.create.isOk then 1 else 0 := by
  have hbody := tryBody_killCount beh code deps files args hostEnv
  unfold executeTypeScript
  by_cases hc : beh.create.isOk = true
  · rw [if_pos hc, if_pos hc]
    cases hk : beh.kill with
    | ok u =>
        simp only [killCount, List.countP_append] at hbody ⊢
        simp [hbody, Event.isKill, List.countP_cons]
    | error e =>
        simp only [killCount, List.countP_append] at hbody ⊢
        simp [hbody, Event.isKill, List.countP_cons]
  · rw [if_neg hc, if_neg hc]
    exact hbody

/-- C4 (counterexample): when provisioning fails, no teardown is attempted,
refuting "exactly one teardown per invocation regardless of which phase
fails". -/
theorem teardown_zero_when_create_fails :
    ¬ killCount (executeTypeScript behCreateFails "" none none none []).1 = 1 := by
  decide

/-- C1 (amended): provided teardown itself does not throw, the adapter
returns a well-formed result rather than raising, and any failure in the
try block (provisioning, install, staging, execution) is folded into a
result with `errorMessage` set and empty `stdout`. -/
theorem adapter_no_raise (beh : SandboxBehavior) (code : String)
    (deps : Option (List String)) (files : Option (List (String × String)))
    (args : Option Json) (hostEnv : List (String × Option String))
    (hkill : beh.create.isOk = true → beh.kill.isOk = true) :
    ∃ r, (executeTypeScript beh code deps files args hostEnv).2 = .ok r ∧
      (∀ msg, (tryBody beh code deps files args hostEnv).2 = .error msg →
        r.error.isSome = true ∧ r.stdout = "") := by
  unfold executeTypeScript
  by_cases hc : beh.create.isOk = true
  · rw [if_pos hc]
    cases hk : beh.kill with
    | ok u =>
        refine ⟨_, rfl, ?_⟩
        intro msg hmsg
        rw [hmsg]
        simp [catchResult]
    | error e =>
        exact absurd (hkill hc) (by rw [hk]; simp [Except.isOk, Except.toBool])
  · rw [if_neg hc]
    refine ⟨_, rfl, ?_⟩
    intro msg hmsg
    rw [hmsg]
    simp [catchResult]

/-- C1 (counterexample): a teardown failure escapes the adapter boundary as
a raised exception (the `finally` block's own exception replaces the
result), refuting "no exception escapes whatever phase fails". -/
theorem teardown_failure_escapes :
    (executeTypeScript behKillFails "" none none none []).2
      = Except.error "kill: sandbox already gone" := rfl

theorem adapter_no_raise_witness :
    (behRunFails.create.isOk = true → behRunFails.kill.isOk = true) ∧
    ∃ r, (executeTypeScript behRunFails "" none none none []).2 = .ok r ∧
      (∀ msg, (tryBody behRunFails "" none none none []).2 = .error msg →
        r.error.isSome = true ∧ r.stdout = "") :=
  ⟨fun _ => rfl, adapter_no_raise behRunFails "" none none none [] (fun _ => rfl)⟩

/-- Helper: the result a successful adapter call returns is the try-block
result, or the catch-block fold of the thrown message. -/
theorem executeTypeScript_ok (beh : SandboxBehavior) (code : String)
    (deps : Option (List String)) (files : Option (List (String × String)))
    (args : Option Json) (hostEnv : List (String × Option String)) (r : ExecResult)
    (hr : (executeTypeScript beh code deps files args hostEnv).2 = .ok r) :
    r = match (tryBody beh code deps files args hostEnv).2 with
        | .ok r' => r'
        | .error msg => catchResult "unknown error" msg := by
  unfold executeTypeScript at hr
  by_cases hc : beh.create.isOk = true
  · rw [if_pos hc] at hr
    cases hk : beh.kill with
    | ok u => rw [hk] at hr; exact (Except.ok.inj hr).symm
    | error e => rw [hk] at hr; exact absurd hr (by simp)
  · rw [if_neg hc] at hr
    exact (Except.ok.inj hr).symm

/-- C3 (amended): on the exception path — whenever the try block threw —
the returned result has `errorMessage` set and `resultValue` absent.  (On
the normal path a sandbox-reported fault and a parseable stdout span can
set both; see the counterexample.) -/
theorem catch_error_implies_no_result (beh : SandboxBehavior) (code : String)
    (deps : Option (List String)) (files : Option (List (String × String)))
    (args : Option Json) (hostEnv : List (String × Option String)) (msg : String)
    (r : ExecResult)
    (hmsg : (tryBody beh code deps files args hostEnv).2 = .error msg)
    (hr : (executeTypeScript beh code deps files args hostEnv).2 = .ok r) :
    r.error.isSome = true ∧ r.result = none := by
  have h := executeTypeScript_ok beh code deps files args hostEnv r hr
  rw [hmsg] at h
  subst h
  simp [catchResult]

/-- C3 (counterexample): the adapter can return `errorMessage` and
`resultValue` both present — the sandbox reported a runtime fault and the
stdout span still parsed — refuting "errorMessage set implies resultValue
absent". -/
theorem error_and_result_both_present :
    ((executeTypeScript behFaultAndJson "" none none none []).2.toOption.map
      fun r => (r.error.isSome, r.result.isSome)) = some (true, true) := rfl

theorem catch_error_implies_no_result_witness :
    (tryBody behCatchPath "" none none none []).2 = Except.error "x"
    ∧ (executeTypeScript behCatchPath "" none none none []).2
        = Except.ok (catchResult "unknown error" "x")
    ∧ (catchResult "unknown error" "x").error.isSome = true
    ∧ (catchResult "unknown error" "x").result = none :=
  ⟨rfl, rfl,
    (catch_error_implies_no_result behCatchPath "" none none none [] "x"
      (catchResult "unknown error" "x") rfl rfl).1,
    (catch_error_implies_no_result behCatchPath "" none none none [] "x"
      (catchResult "unknown error" "x") rfl rfl).2⟩

/-- C9 (amended): the two adapter variants return identical traces and
results whenever the try block does not throw an empty-message exception;
in that remaining case their fallback texts differ in capitalisation. -/
theorem variants_agree (beh : SandboxBehavior) (code : String)
    (deps : Option (List String)) (files : Option (List (String × String)))
    (args : Option Json) (hostEnv : List (String × Option String))
    (h : ∀ e, (tryBody beh code deps files args hostEnv).2 = .error e → e ≠ "") :
    executeTypeScript2 beh code deps files args hostEnv
      = executeTypeScript beh code deps files args hostEnv := by
  simp only [executeTypeScript, executeTypeScript2]
  have hinner :
      (match (tryBody beh code deps files args hostEnv).2 with
        | .ok r => r
        | .error msg => catchResult "Unknown error" msg)
      = (match (tryBody beh code deps files args hostEnv).2 with
        | .ok r => r
        | .error msg => catchResult "unknown error" msg) := by
    cases htb : (tryBody beh code deps files args hostEnv).2 with
    | ok r => rfl
    | error e =>
        have hne := h e htb
        simp [catchResult, hne]
  rw [hinner]

theorem variants_agree_witness :
    (∀ e, (tryBody behAllOk "" none none none []).2 = .error e → e ≠ "")
    ∧ executeTypeScript2 behAllOk "" none none none []
        = executeTypeScript behAllOk "" none none none [] := by
  have hok : (tryBody behAllOk "" none none none []).2
      = Except.ok (mkResult behAllOk ocEmpty) := rfl
  refine ⟨?_, variants_agree behAllOk "" none none none [] ?_⟩ <;>
    · intro e he
      rw [hok] at he
      cases he

/-- C9 (counterexample): on an exception with empty message the two
variants return different results — `"unknown error"` versus
`"Unknown error"` — refuting "for every input and every sandbox behavior,
both return the same ExecutionResult". -/
theorem variants_differ_on_empty_message :
    stderrOfOutcome (executeTypeScript behEmptyMsg "" none none none []) = "unknown error"
    ∧ stderrOfOutcome (executeTypeScript2 behEmptyMsg "" none none none []) = "Unknown error"
    ∧ executeTypeScript2 behEmptyMsg "" none none none []
        ≠ executeTypeScript behEmptyMsg "" none none none [] := by
  refine ⟨rfl, rfl, ?_⟩
  intro h
  have h2 : ("Unknown error" : String) = "unknown error" :=
    congrArg stderrOfOutcome h
  exact absurd h2 (by decide)

/-- C10: a host variable whose name matches a forwarding rule but whose
value is undefined is still forwarded, with the empty string as its value
(`value || ""`). -/
theorem undefined_value_forwarded_empty (hostEnv : List (String × Option String))
    (args : Option Json) (key : String)
    (hmem : (key, (none : Option String)) ∈ hostEnv) (hmatch : matchRule key = true) :
    (key, "") ∈ buildEnvVars hostEnv args := by
  unfold buildEnvVars
  apply List.mem_append_left
  exact List.mem_map.mpr
    ⟨(key, none), List.mem_filter.mpr ⟨hmem, hmatch⟩, rfl⟩

theorem undefined_value_forwarded_empty_witness :
    ((("FOO_API_KEY" : String), (none : Option String))
        ∈ [(("FOO_API_KEY" : String), (none : Option String))])
    ∧ matchRule "FOO_API_KEY" = true
    ∧ ("FOO_API_KEY", "") ∈ buildEnvVars [("FOO_API_KEY", none)] none :=
  ⟨by simp, by decide,
    undefined_value_forwarded_empty [("FOO_API_KEY", none)] none "FOO_API_KEY"
      (by simp) (by decide)⟩

/-- C2 (amended): the forwarded environment's names are exactly the host
names matching the forwarding rule, plus `ARGS_JSON` when a truthy
arguments value was supplied; and every run call the adapter makes carries
exactly this environment. -/
theorem env_forwarding_exact (hostEnv : List (String × Option String)) (args : Option Json) :
    (∀ key, key ∈ (buildEnvVars hostEnv args).map Prod.fst ↔
      ((∃ v, (key, v) ∈ hostEnv ∧ matchRule key = true)
        ∨ ((∃ a, args = some a ∧ a.truthy = true) ∧ key = "ARGS_JSON")))
    ∧ ∀ beh code deps files envs,
        Event.run code envs ∈ (executeTypeScript beh code deps files args hostEnv).1 →
        envs = buildEnvVars hostEnv args := by
  constructor
  · intro key
    constructor
    · intro hk
      rcases List.mem_map.mp hk with ⟨kv, hkv, hfst⟩
      rcases List.mem_append.mp hkv with h | h
      · rcases List.mem_map.mp h with ⟨kv0, hkv0, heq⟩
        have hf := List.mem_filter.mp hkv0
        have hkey : kv0.1 = key := by rw [← heq] at hfst; exact hfst
        subst hkey
        exact Or.inl ⟨kv0.2, hf.1, hf.2⟩
      · cases args with
        | none => simp at h
        | some a =>
            by_cases ht : a.truthy = true
            · simp only [ht, if_true] at h
              simp at h
              rw [h] at hfst
              exact Or.inr ⟨⟨a, rfl, ht⟩, hfst.symm⟩
            · simp only [eq_false_of_ne_true ht, if_false] at h
              simp at h
    · intro h
      rcases h with ⟨v, hmem, hmatch⟩ | ⟨⟨a, ha, htr⟩, hkey⟩
      · exact List.mem_map.mpr
          ⟨(key, v.getD ""),
            List.mem_append_left _
              (List.mem_map.mpr ⟨(key, v), List.mem_filter.mpr ⟨hmem, hmatch⟩, rfl⟩),
            rfl⟩
      · subst ha
        subst hkey
        refine List.mem_map.mpr ⟨("ARGS_JSON", Json.stringify a), List.mem_append_right _ ?_, rfl⟩
        simp [htr]
  · intro beh code deps files envs hev
    have hdisp : Event.run code envs ∈ (tryBody beh code deps files args hostEnv).1 →
        envs = buildEnvVars hostEnv args := by
      intro h
      rcases tryBody_events beh code deps files args hostEnv _ h with
        h1 | ⟨c, h1⟩ | ⟨p, c2, h1⟩ | h1 | h1 | ⟨p, h1⟩
      · simp at h1
      · simp at h1
      · simp at h1
      · cases h1
        rfl
      · simp at h1
      · simp at h1
    simp only [executeTypeScript] at hev
    by_cases hc : beh.create.isOk = true
    · rw [if_pos hc] at hev
      cases hk : beh.kill with
      | ok u =>
          rw [hk] at hev
          rcases List.mem_append.mp hev with h | h
          · exact hdisp h
          · simp at h
      | error e =>
          rw [hk] at hev
          rcases List.mem_append.mp hev with h | h
          · exact hdisp h
          · simp at h
    · rw [if_neg hc] at hev
      exact hdisp hev

/-- C2 (counterexample): a supplied-but-falsy arguments value (here the
JSON value `false`) is not reflected by any `ARGS_JSON` entry — the
forwarded set is empty although arguments were supplied, refuting the claim
as stated. -/
theorem falsy_args_no_ARGS_JSON :
    ¬ ("ARGS_JSON" ∈ (buildEnvVars [] (some (Json.bool false))).map Prod.fst) := by
  decide

theorem matchRule_ne_ARGS_JSON (key : String) (h : matchRule key = true) :
    key ≠ "ARGS_JSON" := by
  intro hk
  subst hk
  exact absurd h (by decide)

theorem lookup_append_not_key {β : Type} (l1 l2 : List (String × β)) (key : String)
    (h : ∀ kv ∈ l1, kv.1 ≠ key) : (l1 ++ l2).lookup key = l2.lookup key := by
  induction l1 with
  | nil => simp
  | cons kv l1 ih =>
      obtain ⟨k, b⟩ := kv
      have hne : (key == k) = false := by
        have := h (k, b) (by simp)
        simp only at this
        simp [beq_eq_false_iff_ne]
        exact fun he => this he.symm
      simp only [List.cons_append, List.lookup, hne]
      exact ih fun kv' hkv' => h kv' (by simp [hkv'])

/-- C7 (amended): for every truthy supplied arguments value, the
environment passed to the sandbox carries exactly one reserved variable
`ARGS_JSON`, holding the JSON serialization of the arguments, and parsing
it back yields the identical structure. -/
theorem args_roundtrip (hostEnv : List (String × Option String)) (a : Json)
    (ht : a.truthy = true) :
    (buildEnvVars hostEnv (some a)).lookup "ARGS_JSON" = some (Json.stringify a)
    ∧ Json.parse (Json.stringify a) = some a
    ∧ ((buildEnvVars hostEnv (some a)).map Prod.fst).count "ARGS_JSON" = 1 := by
  have hbuild : buildEnvVars hostEnv (some a)
      = ((hostEnv.filter fun kv => matchRule kv.1).map fun kv => (kv.1, kv.2.getD ""))
        ++ [("ARGS_JSON", Json.stringify a)] := by
    simp [buildEnvVars, ht]
  have hkeys : ∀ kv ∈ (hostEnv.filter fun kv => matchRule kv.1).map
      fun kv => (kv.1, kv.2.getD ""), kv.1 ≠ "ARGS_JSON" := by
    intro kv hkv
    rcases List.mem_map.mp hkv with ⟨kv0, hkv0, heq⟩
    have hf := List.mem_filter.mp hkv0
    rw [← heq]
    exact matchRule_ne_ARGS_JSON kv0.1 hf.2
  refine ⟨?_, Json.parse_stringify a, ?_⟩
  · rw [hbuild, lookup_append_not_key _ _ _ hkeys]
    simp [List.lookup]
  · rw [hbuild]
    rw [List.map_append, List.count_append]
    have h0 : (((hostEnv.filter fun kv => matchRule kv.1).map
        fun kv => (kv.1, kv.2.getD "")).map Prod.fst).count "ARGS_JSON" = 0 := by
      rw [List.count_eq_zero]
      intro hmem
      rcases List.mem_map.mp hmem with ⟨kv, hkv, heq⟩
      exact hkeys kv hkv heq
    rw [h0]
    simp

/-- C7 (counterexample): a supplied-but-falsy arguments value (the JSON
value `false`) is not serialized into the sandbox environment at all —
`ARGS_JSON` is absent and the environment is empty — refuting "for every
supplied arguments value". -/
theorem falsy_args_not_serialized :
    (buildEnvVars [] (some (Json.bool false))).lookup "ARGS_JSON" = none
    ∧ buildEnvVars [] (some (Json.bool false)) = [] := ⟨rfl, rfl⟩

theorem args_roundtrip_witness :
    (Json.obj [("n", Json.num 3), ("tag", Json.str "x")]).truthy = true
    ∧ ((buildEnvVars [] (some (Json.obj [("n", Json.num 3), ("tag", Json.str "x")]))).lookup
        "ARGS_JSON" = some (Json.stringify (Json.obj [("n", Json.num 3), ("tag", Json.str "x")]))
      ∧ Json.parse (Json.stringify (Json.obj [("n", Json.num 3), ("tag", Json.str "x")]))
          = some (Json.obj [("n", Json.num 3), ("tag", Json.str "x")])
      ∧ ((buildEnvVars [] (some (Json.obj [("n", Json.num 3), ("tag", Json.str "x")]))).map
          Prod.fst).count "ARGS_JSON" = 1) :=
  ⟨rfl, args_roundtrip [] (Json.obj [("n", Json.num 3), ("tag", Json.str "x")]) rfl⟩

/-- When every read succeeds, the collection loop returns exactly the kept
entries with their contents, in listing order. -/
theorem collectLoop_all_ok (beh : SandboxBehavior) (entries : List FileEntry)
    (cont : String → String) (hread : ∀ p, beh.read p = .ok (cont p)) :
    (collectLoop beh entries).2
      = (entries.filter keepFile).map fun e => (e.name, cont ("/home/user/" ++ e.name)) := by
  induction entries with
  | nil => simp [collectLoop]
  | cons e rest ih =>
      unfold collectLoop
      by_cases hk : keepFile e = true
      · rw [if_pos hk, hread ("/home/user/" ++ e.name)]
        simp [List.filter_cons, hk, ih]
      · rw [if_neg hk]
        simp [List.filter_cons, hk, ih]

/-- C6: after a successful run with a working listing and readable files,
`outputFiles` holds exactly the regular files that do not carry the `.ts`
extension and are not in the exclusion set — and it is omitted (`none`),
never an empty mapping, when no file qualifies. -/
theorem output_files_exact (beh : SandboxBehavior) (code : String)
    (deps : Option (List String)) (files : Option (List (String × String)))
    (args : Option Json) (hostEnv : List (String × Option String))
    (entries : List FileEntry) (cont : String → String) (r : ExecResult)
    (hlist : beh.list = .ok entries)
    (hread : ∀ p, beh.read p = .ok (cont p))
    (htb : (tryBody beh code deps files args hostEnv).2 = .ok r) :
    (r.files =
      if ((entries.filter keepFile).map fun e =>
          (e.name, cont ("/home/user/" ++ e.name))).isEmpty = true then none
      else some ((entries.filter keepFile).map fun e =>
          (e.name, cont ("/home/user/" ++ e.name))))
    ∧ ∀ l, r.files = some l → l ≠ [] := by
  obtain ⟨ex, hrun, hr⟩ := tryBody_ok beh code deps files args hostEnv r htb
  subst hr
  have hcoll : (collectFiles beh).2
      = (entries.filter keepFile).map fun e => (e.name, cont ("/home/user/" ++ e.name)) := by
    unfold collectFiles
    rw [hlist]
    exact collectLoop_all_ok beh entries cont hread
  constructor
  · simp [mkResult, hcoll]
  · intro l hl
    simp only [mkResult] at hl
    by_cases he : (collectFiles beh).2.isEmpty = true
    · rw [if_pos he] at hl
      cases hl
    · rw [if_neg he] at hl
      have : (collectFiles beh).2 = l := Option.some.inj hl
      subst this
      intro hnil
      rw [hnil] at he
      exact he rfl

theorem output_files_exact_witness :
    (mkResult behC6 ocEmpty).files = some [("report.csv", "data")]
    ∧ ∀ l, (mkResult behC6 ocEmpty).files = some l → l ≠ [] := by
  have h := output_files_exact behC6 "" none none none [] entriesC6
    (fun _ => "data") (mkResult behC6 ocEmpty) rfl (fun _ => rfl) rfl
  exact ⟨h.1.trans rfl, h.2⟩

theorem effBind_snd_bind {α β : Type} (x : EffM α) (f : α → EffM β) :
    (effBind x f).2 = match x.2 with
      | .ok a => (f a).2
      | .error e => .error e := by
  rcases x with ⟨lg, r⟩
  cases r <;> simp [effBind]

/-- The try block's outcome, except for the collected files, does not
depend on the listing or reading behaviour. -/
theorem tryBody_core_independent (beh : SandboxBehavior)
    (l2 : Except String (List FileEntry)) (rd2 : String → Except String String)
    (code : String) (deps : Option (List String)) (files : Option (List (String × String)))
    (args : Option Json) (hostEnv : List (String × Option String)) :
    (tryBody { beh with list := l2, read := rd2 } code deps files args hostEnv).2.map coreOf
      = (tryBody beh code deps files args hostEnv).2.map coreOf := by
  have hip : installPhase { beh with list := l2, read := rd2 } deps = installPhase beh deps := by
    cases deps <;> rfl
  have hwf : ∀ fs, writeFiles { beh with list := l2, read := rd2 } fs = writeFiles beh fs := by
    intro fs
    induction fs with
    | nil => rfl
    | cons pc rest ih =>
        obtain ⟨p, c⟩ := pc
        simp only [writeFiles]
        rw [ih]
  have hwp : writePhase { beh with list := l2, read := rd2 } files = writePhase beh files := by
    cases files with
    | none => rfl
    | some fs => exact hwf fs
  have h2c : ({ beh with list := l2, read := rd2 } : SandboxBehavior).create = beh.create := rfl
  have h2r : ({ beh with list := l2, read := rd2 } : SandboxBehavior).run = beh.run := rfl
  simp only [tryBody, hip, hwp, h2c, h2r]
  simp only [effBind_snd_bind, effStep]
  cases hc : beh.create with
  | error e => simp [Except.map]
  | ok u =>
      cases hi : (installPhase beh deps).2 with
      | error e => simp [Except.map]
      | ok u2 =>
          cases hw : (writePhase beh files).2 with
          | error e => simp [Except.map]
          | ok u3 =>
              cases hr : beh.run code (buildEnvVars hostEnv args) with
              | error e => simp [Except.map]
              | ok ex => simp [Except.map]; rfl

/-- C8: listing or read failures during output collection are swallowed —
for any two collection behaviours, the adapter's outcome is identical in
its raise-status, stdout, stderr, result and errorMessage; only `files`
can differ, and it is never an empty mapping. -/
theorem output_collection_swallowed (beh : SandboxBehavior)
    (l2 : Except String (List FileEntry)) (rd2 : String → Except String String)
    (code : String) (deps : Option (List String)) (files : Option (List (String × String)))
    (args : Option Json) (hostEnv : List (String × Option String)) :
    (executeTypeScript { beh with list := l2, read := rd2 }
        code deps files args hostEnv).2.map coreOf
      = (executeTypeScript beh code deps files args hostEnv).2.map coreOf
    ∧ ∀ r, (executeTypeScript beh code deps files args hostEnv).2 = .ok r →
        r.files ≠ some [] := by
  constructor
  · have hcore := tryBody_core_independent beh l2 rd2 code deps files args hostEnv
    have h2c : ({ beh with list := l2, read := rd2 } : SandboxBehavior).create = beh.create := rfl
    have h2k : ({ beh with list := l2, read := rd2 } : SandboxBehavior).kill = beh.kill := rfl
    simp only [executeTypeScript, h2c, h2k]
    have hinner : coreOf
        (match (tryBody { beh with list := l2, read := rd2 } code deps files args hostEnv).2 with
          | .ok r => r
          | .error msg => catchResult "unknown error" msg)
        = coreOf (match (tryBody beh code deps files args hostEnv).2 with
          | .ok r => r
          | .error msg => catchResult "unknown error" msg) := by
      cases h1 : (tryBody { beh with list := l2, read := rd2 } code deps files args hostEnv).2 with
      | ok r1 =>
          cases h2 : (tryBody beh code deps files args hostEnv).2 with
          | ok r2 =>
              rw [h1, h2] at hcore
              exact Option.some.inj (by simpa [Except.map] using hcore)
          | error e2 => rw [h1, h2] at hcore; simp [Except.map] at hcore
      | error e1 =>
          cases h2 : (tryBody beh code deps files args hostEnv).2 with
          | ok r2 => rw [h1, h2] at hcore; simp [Except.map] at hcore
          | error e2 =>
              rw [h1, h2] at hcore
              simp only [Except.map] at hcore
              have he : e1 = e2 := by
                cases hcore
                rfl
              rw [he]
    set t1 := (tryBody { beh with list := l2, read := rd2 } code deps files args hostEnv).2
    set t2 := (tryBody beh code deps files args hostEnv).2
    by_cases hc : beh.create.isOk = true
    · rw [if_pos hc, if_pos hc]
      cases hk : beh.kill with
      | ok u => simp [Except.map, hinner]
      | error e => simp [Except.map]
    · rw [if_neg hc, if_neg hc]
      simp [Except.map, hinner]
  · intro r hr
    have h := executeTypeScript_ok beh code deps files args hostEnv r hr
    cases htb : (tryBody beh code deps files args hostEnv).2 with
    | ok r' =>
        rw [htb] at h
        obtain ⟨ex, hrun, hr'⟩ := tryBody_ok beh code deps files args hostEnv r' htb
        subst h
        subst hr'
        simp only [mkResult]
        by_cases he : (collectFiles beh).2.isEmpty = true
        · rw [if_pos he]
          intro hcontra
          cases hcontra
        · rw [if_neg he]
          intro hcontra
          have := Option.some.inj hcontra
          rw [this] at he
          exact he rfl
    | error msg =>
        rw [htb] at h
        subst h
        simp [catchResult]

theorem firstIdx_none (p : Char → Bool) (l : List Char) (h : firstIdx p l = none) :
    ∀ c ∈ l, p c = false := by
  induction l with
  | nil => simp
  | cons c cs ih =>
      unfold firstIdx at h
      by_cases hc : p c = true
      · rw [if_pos hc] at h; cases h
      · rw [if_neg hc] at h
        intro d hd
        rcases List.mem_cons.mp hd with rfl | hd
        · simpa using hc
        · exact ih (Option.map_eq_none'.mp h) d hd

theorem lastIdx_none (p : Char → Bool) (l : List Char) (h : lastIdx p l = none) :
    ∀ c ∈ l, p c = false := by
  induction l with
  | nil => simp
  | cons c cs ih =>
      unfold lastIdx at h
      cases hlc : lastIdx p cs with
      | some j => rw [hlc] at h; cases h
      | none =>
          rw [hlc] at h
          by_cases hc : p c = true
          · rw [if_pos hc] at h; cases h
          · intro d hd
            rcases List.mem_cons.mp hd with rfl | hd
            · simpa using hc
            · exact ih hlc d hd

theorem firstIdx_decomp (p : Char → Bool) (l : List Char) (i : Nat)
    (h : firstIdx p l = some i) :
    ∃ pre c post, l = pre ++ c :: post ∧ pre.length = i ∧ p c = true
      ∧ ∀ d ∈ pre, p d = false := by
  induction l generalizing i with
  | nil => cases h
  | cons c cs ih =>
      unfold firstIdx at h
      by_cases hc : p c = true
      · rw [if_pos hc] at h
        injection h with h0
        exact ⟨[], c, cs, rfl, h0, hc, by simp⟩
      · rw [if_neg hc] at h
        rcases Option.map_eq_some'.mp h with ⟨i0, hfc, hi⟩
        obtain ⟨pre, c0, post, hl, hlen, hc0, hpre⟩ := ih i0 hfc
        refine ⟨c :: pre, c0, post, by simp [hl], by simp [hlen, hi], hc0, ?_⟩
        intro d hd
        rcases List.mem_cons.mp hd with rfl | hd
        · simpa using hc
        · exact hpre d hd

theorem lastIdx_decomp (p : Char → Bool) (l : List Char) (j : Nat)
    (h : lastIdx p l = some j) :
    ∃ pre c post, l = pre ++ c :: post ∧ pre.length = j ∧ p c = true
      ∧ ∀ d ∈ post, p d = false := by
  induction l generalizing j with
  | nil => cases h
  | cons c cs ih =>
      unfold lastIdx at h
      cases hlc : lastIdx p cs with
      | some j0 =>
          rw [hlc] at h
          injection h with hj
          obtain ⟨pre, c0, post, hl, hlen, hc0, hpost⟩ := ih j0 hlc
          exact ⟨c :: pre, c0, post, by simp [hl], by simp [hlen, hj], hc0, hpost⟩
      | none =>
          rw [hlc] at h
          by_cases hc : p c = true
          · rw [if_pos hc] at h
            injection h with hj
            exact ⟨[], c, cs, rfl, hj, hc, lastIdx_none p cs hlc⟩
          · rw [if_neg hc] at h; cases h

theorem firstIdx_le_of_mem (p : Char → Bool) (pre : List Char) (c : Char)
    (post : List Char) (hc : p c = true) :
    ∃ i, firstIdx p (pre ++ c :: post) = some i ∧ i ≤ pre.length := by
  induction pre with
  | nil => exact ⟨0, by simp [firstIdx, hc], by simp⟩
  | cons d pre ih =>
      by_cases hd : p d = true
      · exact ⟨0, by simp [firstIdx, hd], by simp⟩
      · obtain ⟨i0, hf, hle⟩ := ih
        refine ⟨i0 + 1, ?_, by simp; omega⟩
        simp [firstIdx, hd, hf]

theorem lastIdx_ge_of_mem (p : Char → Bool) (pre : List Char) (c : Char)
    (post : List Char) (hc : p c = true) :
    ∃ j, lastIdx p (pre ++ c :: post) = some j ∧ pre.length ≤ j := by
  induction pre with
  | nil =>
      cases hlp : lastIdx p post with
      | some j0 => exact ⟨j0 + 1, by simp [lastIdx, hlp], by simp⟩
      | none => exact ⟨0, by simp [lastIdx, hlp, hc], by simp⟩
  | cons d pre ih =>
      obtain ⟨j0, hl, hge⟩ := ih
      refine ⟨j0 + 1, ?_, by simp; omega⟩
      simp only [List.cons_append, lastIdx, List.append_eq, hl]

/-- Characterization of a successful regex match: the span runs from the
first opening brace (nothing before it is one) to the last closing brace
(nothing after it is one) — the greedy first match by position. -/
theorem jsonMatch_some_spec (s m : String) (h : jsonMatch s = some m) :
    ∃ pre post, s.data = pre ++ m.data ++ post
      ∧ m.data.head? = some '{' ∧ m.data.getLast? = some '}'
      ∧ (∀ c ∈ pre, ¬ c = '{') ∧ (∀ c ∈ post, ¬ c = '}') := by
  unfold jsonMatch at h
  cases hf : firstIdx (fun c => c = '{') s.data with
  | none => rw [hf] at h; cases h
  | some i =>
      cases hl : lastIdx (fun c => c = '}') s.data with
      | none => rw [hf, hl] at h; cases h
      | some j =>
          rw [hf, hl] at h
          have hih : (if i < j then
              some (⟨(s.data.drop i).take (j - i + 1)⟩ : String) else none) = some m := h
          by_cases hij : i < j
          · rw [if_pos hij] at hih
            injection hih with h'
            have hm : m.data = (s.data.drop i).take (j - i + 1) := by rw [← h']
            obtain ⟨pre1, c1, post1, hd1, hlen1, hc1, hpre1⟩ := firstIdx_decomp _ _ _ hf
            obtain ⟨pre2, c2, post2, hd2, hlen2, hc2, hpost2⟩ := lastIdx_decomp _ _ _ hl
            have hc1' : c1 = '{' := by simpa using hc1
            have hc2' : c2 = '}' := by simpa using hc2
            subst hc1' hc2'
            have hdropA : s.data.drop i = '{' :: post1 := by
              rw [hd1, ← hlen1, List.drop_left]
            have hij' : i ≤ pre2.length := by omega
            have hdropB : s.data.drop i = pre2.drop i ++ '}' :: post2 := by
              rw [hd2, List.drop_append_eq_append_drop]
              have : i - pre2.length = 0 := by omega
              rw [this, List.drop_zero]
            have hlen2' : (pre2.drop i).length = j - i := by
              rw [List.length_drop, hlen2]
            have hmB : m.data = pre2.drop i ++ ['}'] := by
              rw [hm, hdropB, List.take_append_eq_append_take, hlen2']
              have h1 : j - i + 1 - (j - i) = 1 := by omega
              rw [h1]
              have h2 : (pre2.drop i).take (j - i + 1) = pre2.drop i := by
                apply List.take_of_length_le
                rw [hlen2']
                omega
              rw [h2]
              rfl
            refine ⟨pre1, post2, ?_, ?_, ?_, ?_, ?_⟩
            · have hsplit : s.data = s.data.take i ++ s.data.drop i :=
                (List.take_append_drop i s.data).symm
              have htake : s.data.take i = pre1 := by
                rw [hd1, ← hlen1, List.take_left]
              rw [hsplit, htake, hdropB, hmB]
              simp
            · rw [hm, hdropA]
              have : j - i + 1 = (j - i) + 1 := rfl
              rw [this, List.take_succ_cons]
              rfl
            · rw [hmB]
              exact List.getLast?_concat _
            · intro c hc
              have := hpre1 c hc
              simpa using this
            · intro c hc
              have := hpost2 c hc
              simpa using this
          · rw [if_neg hij] at hih; cases hih

/-- Characterization of a failed regex match: the text has no opening brace
followed (anywhere later) by a closing brace. -/
theorem jsonMatch_none_spec (s : String) (h : jsonMatch s = none) :
    ∀ pre mid post, s.data ≠ pre ++ '{' :: (mid ++ '}' :: post) := by
  intro pre mid post heq
  obtain ⟨i, hf, hile⟩ :=
    firstIdx_le_of_mem (fun c => c = '{') pre '{' (mid ++ '}' :: post) (by simp)
  have heq2 : s.data = (pre ++ '{' :: mid) ++ '}' :: post := by rw [heq]; simp
  obtain ⟨j, hl, hjge⟩ :=
    lastIdx_ge_of_mem (fun c => c = '}') (pre ++ '{' :: mid) '}' post (by simp)
  rw [← heq2] at hl
  rw [← heq] at hf
  unfold jsonMatch at h
  rw [hf, hl] at h
  have hih : (if i < j then
      some (⟨(s.data.drop i).take (j - i + 1)⟩ : String) else none) = none := h
  have hij : i < j := by
    simp only [List.length_append, List.length_cons] at hjge
    omega
  rw [if_pos hij] at hih
  cases hih

/-- C5: result extraction parses exactly the first greedy brace-delimited
span of stdout — the span from the first opening brace to the last closing
brace — and a parse failure (or the absence of any span) leaves
`resultValue` unset while `errorMessage` is determined solely by the
sandbox-reported fault. -/
theorem result_extraction_greedy_first (beh : SandboxBehavior) (code : String)
    (deps : Option (List String)) (files : Option (List (String × String)))
    (args : Option Json) (hostEnv : List (String × Option String))
    (ex : RunOutcome) (r : ExecResult)
    (hrun : beh.run code (buildEnvVars hostEnv args) = .ok ex)
    (htb : (tryBody beh code deps files args hostEnv).2 = .ok r) :
    (r.stdout = String.join ex.stdoutChunks
      ∧ r.result = (jsonMatch r.stdout).bind Json.parse
      ∧ r.error = ex.error.map Json.stringify)
    ∧ (∀ s m, jsonMatch s = some m →
        ∃ pre post, s.data = pre ++ m.data ++ post
          ∧ m.data.head? = some '{' ∧ m.data.getLast? = some '}'
          ∧ (∀ c ∈ pre, ¬ c = '{') ∧ (∀ c ∈ post, ¬ c = '}'))
    ∧ (∀ s, jsonMatch s = none →
        ∀ pre mid post, s.data ≠ pre ++ '{' :: (mid ++ '}' :: post)) := by
  obtain ⟨ex', hrun', hr⟩ := tryBody_ok beh code deps files args hostEnv r htb
  rw [hrun] at hrun'
  have hex : ex' = ex := (Except.ok.inj hrun').symm
  subst hex
  subst hr
  exact ⟨⟨rfl, rfl, rfl⟩, jsonMatch_some_spec, jsonMatch_none_spec⟩

theorem result_extraction_witness :
    behC5.run "" (buildEnvVars [] none) = .ok ocC5
    ∧ (tryBody behC5 "" none none none []).2 = .ok (mkResult behC5 ocC5)
    ∧ (mkResult behC5 ocC5).result
        = some (Json.obj [("ok", Json.bool true), ("data", Json.num 5)])
    ∧ ((mkResult behC5 ocC5).stdout = String.join ocC5.stdoutChunks
      ∧ (mkResult behC5 ocC5).result
          = (jsonMatch (mkResult behC5 ocC5).stdout).bind Json.parse
      ∧ (mkResult behC5 ocC5).error = ocC5.error.map Json.stringify) :=
  ⟨rfl, rfl, rfl,
    (result_extraction_greedy_first behC5 "" none none none [] ocC5
      (mkResult behC5 ocC5) rfl rfl).1⟩

end Agent0
